import Mathlib

set_option maxRecDepth 8000

/- Batteries marks the rational-number operations irreducible, which blocks
kernel evaluation of concrete score computations by `decide`; restore the
default reducibility for them in this file.  (Proof checking is unaffected:
the kernel never honours irreducibility; this only lets `decide` proceed.) -/
attribute [local semireducible] Rat.add Rat.mul Rat.inv Rat.sub Rat.ofScientific

/-!
Verification development for the film search engine repository.

The Python sources (film_search/query.py, data.py, indexer.py, search.py)
are shallowly embedded below.  Text is modelled as `List Char` (ASCII
behaviour of Python's `str` operations), pandas nullable cells as `Option`,
and float arithmetic as exact rational arithmetic over `ℚ`.  The regular
expressions of query.py are transliterated into explicit character-level
matchers; each matcher's doc comment quotes the regex it implements, and the
scan order (leftmost position first, alternatives in pattern order) follows
Python `re.search` / `re.finditer` semantics.
-/

namespace FilmSearch

/-- Python `str.isspace` / regex `\s` over the ASCII range:
space, tab, newline, carriage return, vertical tab, form feed. -/
def isSpaceChar (c : Char) : Bool :=
  c = ' ' || c = '\t' || c = '\n' || c = '\r' || c = '\x0b' || c = '\x0c'

/-- Regex `\w` over the ASCII range: letters, digits and underscore. -/
def isWordChar (c : Char) : Bool :=
  c.isAlpha || c.isDigit || c = '_'

/-- ASCII lower-casing of a string, modelling Python `str.lower`. -/
def lowerL (s : List Char) : List Char := s.map Char.toLower

/-- Python `str.strip()`: drop leading and trailing whitespace. -/
def pyStrip (s : List Char) : List Char :=
  ((s.dropWhile isSpaceChar).reverse.dropWhile isSpaceChar).reverse

/-- Case-sensitive test that `pat` is a prefix of `s`
(charwise equality, as in Python string comparison). -/
def chPrefix : List Char → List Char → Bool
  | [], _ => true
  | _ :: _, [] => false
  | p :: ps, c :: cs => p = c && chPrefix ps cs

/-- Python `needle in hay` for strings: `needle` occurs as a contiguous
substring of `hay` (the empty needle always occurs). -/
def strIn (needle : List Char) : List Char → Bool
  | [] => chPrefix needle []
  | c :: cs => chPrefix needle (c :: cs) || strIn needle cs

/-- One step bound for `replaceAll`: each recursion step consumes at least
one character of the subject, so `length + 1` steps of fuel suffice. -/
def replaceAllAux : Nat → List Char → List Char → List Char → List Char
  | 0, _, _, s => s
  | _ + 1, _, _, [] => []
  | fuel + 1, key, val, c :: cs =>
    if chPrefix key (c :: cs) then
      val ++ replaceAllAux fuel key val (List.drop key.length (c :: cs))
    else
      c :: replaceAllAux fuel key val cs

/-- Python `str.replace(key, val)`: replace every non-overlapping occurrence
of `key`, scanning left to right.  All keys used in this repository are
non-empty, for which the fuel bound is exact. -/
def replaceAll (key val s : List Char) : List Char :=
  replaceAllAux (s.length + 1) key val s

/-- GENRE_SYNONYMS from query.py, in Python dict insertion order
(dicts preserve insertion order, and `_normalize_text` iterates
`GENRE_SYNONYMS.items()` in that order). -/
def GENRE_SYNONYMS : List (List Char × List Char) :=
  [(("sci fi".data), ("science fiction".data)),
   (("sci-fi".data), ("science fiction".data)),
   (("scifi".data), ("science fiction".data)),
   (("romcom".data), ("romance,comedy".data)),
   (("kid".data), ("family".data)),
   (("kids".data), ("family".data))]

/-- ALL_GENRES from query.py.  The Python code stores these in a `set`;
`_extract_genres` iterates the set and then returns `sorted(list(set(found)))`,
so the observable output is the lexicographically sorted list of matching
labels.  We therefore keep the vocabulary as the sorted duplicate-free list;
filtering it yields exactly that sorted output. -/
def ALL_GENRES : List (List Char) :=
  [("action".data), ("adventure".data), ("animation".data), ("comedy".data),
   ("crime".data), ("documentary".data), ("drama".data), ("family".data),
   ("fantasy".data), ("history".data), ("horror".data), ("music".data),
   ("mystery".data), ("romance".data), ("sci-fi".data),
   ("science fiction".data), ("thriller".data), ("war".data),
   ("western".data)]

/-- ParsedQuery dataclass from query.py. -/
structure ParsedQuery where
  raw : List Char
  text : List Char
  year_from : Option Int
  year_to : Option Int
  genres : List (List Char)
  people : List (List Char)
  deriving DecidableEq, Repr

/-- Embedding of `_normalize_text` from query.py: strip, lower-case, then apply every
synonym replacement in table order. -/
def normalize_text (q : List Char) : List Char :=
  GENRE_SYNONYMS.foldl (fun acc kv => replaceAll kv.1 kv.2 acc)
    (lowerL (pyStrip q))

/-- Case-insensitive literal match (all query regexes are compiled with
re.IGNORECASE): consume `pat` from the front of `s`, returning the rest. -/
def dropLitCI : List Char → List Char → Option (List Char)
  | [], s => some s
  | _ :: _, [] => none
  | p :: ps, c :: cs => if c.toLower = p.toLower then dropLitCI ps cs else none

/-- Consume exactly `n` digit characters, accumulating their decimal value
into `acc`; fails if a non-digit (or end of input) is hit first. -/
def takeDigits : Nat → Nat → List Char → Option (Nat × List Char)
  | acc, 0, s => some (acc, s)
  | _, _ + 1, [] => none
  | acc, n + 1, c :: cs =>
    if c.isDigit then takeDigits (acc * 10 + (c.toNat - '0'.toNat)) n cs
    else none

/-- Regex `\b` immediately before a word character: satisfied when the
preceding character (if any) is not a word character. -/
def noWordBefore : Option Char → Bool
  | none => true
  | some c => !isWordChar c

/-- Regex `\b` immediately after a word character: satisfied when the
following character (if any) is not a word character. -/
def noWordAfter : List Char → Bool
  | [] => true
  | c :: _ => !isWordChar c

/-- One attempt of DECADE_RE at a fixed position.
DECADE_RE = `\b(\d{2})s\b|\b(\d{4})s\b|\b(\d{2})'s\b|\b(\d{4})'s\b` (re.I).
The four alternatives are tried in pattern order; every alternative starts
with `\b` followed by digits, so the leading boundary reduces to the
previous character not being a word character.  The returned value is the
captured digit group (the first non-empty group, as `_parse_decade` reads
it). -/
def decadeHere (prev : Option Char) (s : List Char) : Option Nat :=
  let alt : Nat → Bool → Option Nat := fun ndig apos =>
    if noWordBefore prev then
      match takeDigits 0 ndig s with
      | some (v, rest) =>
        let rest2 : Option (List Char) :=
          if apos then
            match rest with
            | '\'' :: r => some r
            | _ => none
          else some rest
        match rest2 with
        | some (c :: r2) =>
          if c.toLower = 's' then (if noWordAfter r2 then some v else none)
          else none
        | _ => none
      | none => none
    else none
  alt 2 false <|> alt 4 false <|> alt 2 true <|> alt 4 true

/-- Embedding of `re.search(DECADE_RE, text)`: try every start position left to right. -/
def searchDecadeAux : Option Char → List Char → Option Nat
  | _, [] => none
  | prev, c :: cs =>
    match decadeHere prev (c :: cs) with
    | some v => some v
    | none => searchDecadeAux (some c) cs

def searchDecade (s : List Char) : Option Nat := searchDecadeAux none s

/-- One attempt of EARLY_LATE_RE at a fixed position.
EARLY_LATE_RE = `(early|late)\s*(\d{2})s\b|(early|late)\s*(\d{4})s\b` (re.I).
Both alternatives share the `(early|late)\s*` head ("early" tried before
"late"; their first letters differ so at most one fits), so the alternation
reduces to trying the two-digit body first and the four-digit body second.
The digits are disjoint from `\s`, so greedy `\s*` needs no backtracking.
Returns (whether the matched word was "early", the digit value): in the
source, `groups[0].lower() == "early"` and `int(groups[1])`. -/
def earlyLateHere (s : List Char) : Option (Bool × Nat) :=
  let word : Option (Bool × List Char) :=
    match dropLitCI ("early".data) s with
    | some r => some (true, r)
    | none =>
      match dropLitCI ("late".data) s with
      | some r => some (false, r)
      | none => none
  match word with
  | none => none
  | some (isEarly, r) =>
    let r1 := r.dropWhile isSpaceChar
    let body : Nat → Option Nat := fun ndig =>
      match takeDigits 0 ndig r1 with
      | some (v, c :: r2) =>
        if c.toLower = 's' then (if noWordAfter r2 then some v else none)
        else none
      | _ => none
    match body 2 <|> body 4 with
    | some v => some (isEarly, v)
    | none => none

/-- Embedding of `re.search(EARLY_LATE_RE, text)` (the pattern has no leading `\b`). -/
def searchEarlyLate : List Char → Option (Bool × Nat)
  | [] => none
  | c :: cs =>
    match earlyLateHere (c :: cs) with
    | some x => some x
    | none => searchEarlyLate cs

/-- The character class `[-to]` of YEAR_RANGE_RE under re.I. -/
def isRangeSep (c : Char) : Bool := c = '-' || c.toLower = 't' || c.toLower = 'o'

/-- One attempt of YEAR_RANGE_RE at a fixed position.
YEAR_RANGE_RE = `(\d{4})\s*[-to]+\s*(\d{4})` (re.I).  The classes `\s`,
`[-to]` and `\d` are pairwise disjoint, so greedy matching of each piece
is exactly the backtracking semantics. -/
def yearRangeHere (s : List Char) : Option (Nat × Nat) :=
  match takeDigits 0 4 s with
  | none => none
  | some (a, r) =>
    let r1 := r.dropWhile isSpaceChar
    let seps := r1.takeWhile isRangeSep
    if seps.isEmpty then none
    else
      let r2 := (r1.dropWhile isRangeSep).dropWhile isSpaceChar
      match takeDigits 0 4 r2 with
      | some (b, _) => some (a, b)
      | none => none

/-- Embedding of `re.search(YEAR_RANGE_RE, text)`. -/
def searchYearRange : List Char → Option (Nat × Nat)
  | [] => none
  | c :: cs =>
    match yearRangeHere (c :: cs) with
    | some x => some x
    | none => searchYearRange cs

/-- One attempt of YEAR_SINGLE_RE at a fixed position.
YEAR_SINGLE_RE = `\b(19\d{2}|20\d{2})\b`: four digits whose value lies in
1900–1999 or 2000–2099, delimited by word boundaries. -/
def yearSingleHere (prev : Option Char) (s : List Char) : Option Nat :=
  if noWordBefore prev then
    match takeDigits 0 4 s with
    | some (v, rest) =>
      if (1900 ≤ v ∧ v ≤ 1999) ∨ (2000 ≤ v ∧ v ≤ 2099) then
        (if noWordAfter rest then some v else none)
      else none
    | none => none
  else none

/-- Embedding of `re.search(YEAR_SINGLE_RE, text)`. -/
def searchYearSingleAux : Option Char → List Char → Option Nat
  | _, [] => none
  | prev, c :: cs =>
    match yearSingleHere prev (c :: cs) with
    | some v => some v
    | none => searchYearSingleAux (some c) cs

def searchYearSingle (s : List Char) : Option Nat := searchYearSingleAux none s

/-- The `if v_int < 100: start = 1900 + v_int else: start = v_int` step that
`_parse_decade` applies to the captured decade token (a two-digit value
below 100 is assumed to belong to the 1900s). -/
def decadeStart (v : Nat) : Int := if v < 100 then 1900 + v else (v : Int)

/-- Embedding of `_parse_decade` from query.py: early/late decades first, then bare
decades; on a match the result spans the half or full decade. -/
def parse_decade (text : List Char) : Option (Int × Int) :=
  match searchEarlyLate text with
  | some (isEarly, v) =>
    let start := decadeStart v
    if isEarly then some (start, start + 4) else some (start + 5, start + 9)
  | none =>
    match searchDecade text with
    | some v =>
      let start := decadeStart v
      some (start, start + 9)
    | none => none

/-- Embedding of `_parse_years` from query.py: explicit range (swapped if reversed),
then decades, then a single year, else no bounds. -/
def parse_years (text : List Char) : Option Int × Option Int :=
  match searchYearRange text with
  | some (a, b) =>
    if (a : Int) > (b : Int) then (some (b : Int), some (a : Int))
    else (some (a : Int), some (b : Int))
  | none =>
    match parse_decade text with
    | some (lo, hi) => (some lo, some hi)
    | none =>
      match searchYearSingle text with
      | some y => (some (y : Int), some (y : Int))
      | none => (none, none)

/-- The cue-word alternation of PERSON_HINT_RE,
`(starring|with|featuring|by|directed by)`, tried in pattern order; the five
alternatives start with five distinct letters, so at most one fits at a
given position. -/
def personCue (s : List Char) : Option (List Char) :=
  dropLitCI ("starring".data) s <|> dropLitCI ("with".data) s <|>
  dropLitCI ("featuring".data) s <|> dropLitCI ("by".data) s <|>
  dropLitCI ("directed by".data) s

/-- The character class `[\w\-\s\.]` of PERSON_HINT_RE. -/
def personClassChar (c : Char) : Bool :=
  isWordChar c || c = '-' || isSpaceChar c || c = '.'

/-- One attempt of PERSON_HINT_RE at a fixed position.
PERSON_HINT_RE = `(starring|with|featuring|by|directed by)\s+([\w\-\s\.]+)`
(re.I).  After the cue word, `\s+` greedily takes the whitespace run and
group 2 greedily takes the following class run.  If no class character
follows the whitespace run, the regex backtracks: `\s+` gives one space
back to group 2, which then matches that single whitespace character —
possible only when the run has length at least two.  Returns
(group 2, remainder after the whole match). -/
def personHere (s : List Char) : Option (List Char × List Char) :=
  match personCue s with
  | none => none
  | some r =>
    let w := r.takeWhile isSpaceChar
    let afterW := r.dropWhile isSpaceChar
    if w.isEmpty then none
    else
      match afterW with
      | c :: _ =>
        if personClassChar c then
          some (afterW.takeWhile personClassChar, afterW.dropWhile personClassChar)
        else
          match w.reverse with
          | lc :: _ => if 2 ≤ w.length then some ([lc], afterW) else none
          | [] => none
      | [] =>
        match w.reverse with
        | lc :: _ => if 2 ≤ w.length then some ([lc], afterW) else none
        | [] => none

/-- Embedding of `re.finditer(PERSON_HINT_RE, text)`: collect all matches' group 2,
resuming after each match; fuelled by the subject length (every step
consumes at least one character). -/
def personScanAux : Nat → List Char → List (List Char)
  | 0, _ => []
  | _ + 1, [] => []
  | fuel + 1, c :: cs =>
    match personHere (c :: cs) with
    | some (g2, rest) => g2 :: personScanAux fuel rest
    | none => personScanAux fuel cs

/-- Embedding of `_extract_people` from query.py: every match contributes its stripped
group 2, kept only when non-empty. -/
def extract_people (s : List Char) : List (List Char) :=
  (personScanAux s.length s).filterMap fun g =>
    let name := pyStrip g
    if name.isEmpty then none else some name

/-- Embedding of `PERSON_HINT_RE.sub(" ", text)`: replace every match with one space. -/
def personSubAux : Nat → List Char → List Char
  | 0, s => s
  | _ + 1, [] => []
  | fuel + 1, c :: cs =>
    match personHere (c :: cs) with
    | some (_, rest) => ' ' :: personSubAux fuel rest
    | none => c :: personSubAux fuel cs

def personSub (s : List Char) : List Char := personSubAux s.length s

/-- Embedding of `_extract_genres` from query.py: every vocabulary label occurring as a
substring of the text, returned sorted and deduplicated (see ALL_GENRES). -/
def extract_genres (text : List Char) : List (List Char) :=
  ALL_GENRES.filter fun g => strIn g text

/-- Embedding of `parse_query` from query.py. -/
def parse_query (q : List Char) : ParsedQuery :=
  let norm := normalize_text q
  let ys := parse_years norm
  let genres := extract_genres norm
  let people := extract_people q
  let cleaned := genres.foldl (fun acc g => replaceAll g (" ".data) acc) norm
  let cleaned2 := personSub cleaned
  { raw := q, text := pyStrip cleaned2, year_from := ys.1, year_to := ys.2,
    genres := genres, people := people }

/-!
## data.py and indexer.py

The dataset adapter (§2 of the spec) guarantees that all fourteen fields are
present on every record, with missing text normalized to the empty string
and missing numerics to null; a record row is therefore a structure whose
text fields are plain strings and whose numeric fields are `Option`s
(pandas NA ↦ `none`).  Floating point cells are modelled as exact rationals.
-/

/-- One row of the loaded movies DataFrame (after `_read_movies_csv` has
normalized types: text fields filled with "", numeric fields nullable). -/
structure RawRecord where
  id : Int
  title : List Char
  overview : List Char
  tags : List Char
  genres : List Char
  director : List Char
  actors : List Char
  characters : List Char
  year : Option Int
  votes : Option Int
  rating : Option ℚ
  popularity : Option ℚ
  budget : Option ℚ
  poster_url : List Char
  deriving DecidableEq, Repr

/-- One row of the metadata table kept in the index bundle
(`project_fields_for_display` keeps id, title, year, genres, director,
actors, rating, votes, popularity, in DataFrame row order). -/
structure MetaRow where
  id : Int
  title : List Char
  year : Option Int
  genres : List Char
  director : List Char
  actors : List Char
  rating : Option ℚ
  votes : Option Int
  popularity : Option ℚ
  deriving DecidableEq, Repr

/-- Default row used only for out-of-range `getD` lookups. -/
def mrDefault : MetaRow :=
  { id := -1, title := [], year := none, genres := [], director := [],
    actors := [], rating := none, votes := none, popularity := none }

/-- Embedding of `project_fields_for_display` from data.py, applied to one row: the
display projection of a record (column selection with `.copy()` preserves
row order and content). -/
def project_fields_for_display (r : RawRecord) : MetaRow :=
  { id := r.id, title := r.title, year := r.year, genres := r.genres,
    director := r.director, actors := r.actors, rating := r.rating,
    votes := r.votes, popularity := r.popularity }

/-- Embedding of `build_canonical_text` from data.py, applied to one row: title,
overview, genres, tags, director, actors, characters concatenated with the
source's separators (the row-wise `str.cat` chain). -/
def build_canonical_text (r : RawRecord) : List Char :=
  r.title ++ (". ".data) ++ r.overview ++ (". ".data) ++ r.genres ++
  (", ".data) ++ r.tags ++ (", ".data) ++ r.director ++ (", ".data) ++
  r.actors ++ (", ".data) ++ r.characters

/-- Embedding of `repeat_tokens` from indexer.py: empty text stays empty, otherwise
`(" " + s)` repeated `max 1 times` times. -/
def repeat_tokens (s : List Char) (times : Nat) : List Char :=
  if s.isEmpty then [] else (List.replicate (max 1 times) (' ' :: s)).flatten

/-- Embedding of `_apply_field_weights` from indexer.py, applied to one row.  The source
iterates `enumerate(texts)` and pairs `texts[i]` with `df.iloc[i]`; since
`texts` is itself the row-wise canonical text of `df`, the loop body is this
per-record function, and the whole loop is its map over the rows. -/
def apply_field_weights (r : RawRecord) : List Char :=
  build_canonical_text r ++
  repeat_tokens r.title 2 ++ repeat_tokens r.genres 2 ++
  repeat_tokens r.director 2 ++ repeat_tokens r.actors 1

/-- Floor square root of a natural number (the number of positive `k` with
`k * k ≤ n`), a structurally recursive equivalent of `Nat.sqrt`. -/
def natSqrt (n : Nat) : Nat :=
  (List.range (n + 1)).countP fun k => decide (0 < k) && decide (k * k ≤ n)

/-- Rational stand-in for `np.sqrt` (exact on perfect squares of naturals;
nonnegative everywhere).  Its argument below is always a sum of squares, and
no claim depends on its value beyond nonnegativity: it only occurs inside
the strictly positive divisor `sqrtQ s + 1e-9` of the query-vector
normalization, and in the L2 row normalization whose exact values no claim
inspects. -/
def sqrtQ (x : ℚ) : ℚ := (natSqrt x.num.toNat : ℚ) / (natSqrt x.den : ℚ)

/-- Sum of squares of a vector. -/
def sumSq (v : List ℚ) : ℚ := (v.map fun x => x * x).sum

/-- Dot product of two aligned sparse rows. -/
def dotQ (v w : List ℚ) : ℚ := (List.zipWith (· * ·) v w).sum

/-- Embedding of `sklearn.preprocessing.normalize` applied to one row: divide by the L2
norm; rows of norm zero are left unchanged. -/
def l2normRow (v : List ℚ) : List ℚ :=
  if sumSq v = 0 then v else v.map fun x => x / sqrtQ (sumSq v)

/-- IndexBundle from indexer.py.  The fitted TfidfVectorizer is external
library state; the bundle carries its `transform` on a single document as an
abstract function producing the document's weighted term vector
(`fit_transform(corpus)` is row-wise `transform` of each corpus document). -/
structure IndexBundle where
  vectorizerTransform : List Char → List ℚ
  matrix : List (List ℚ)
  meta : List MetaRow

/-- Embedding of `build_index` from indexer.py, with the dataset already loaded (loading
and joblib persistence are external I/O): project the display metadata,
build and weight the canonical texts, vectorize and row-normalize.  Both
`matrix` and `meta` are maps over the same row list `df`. -/
def build_index (transform : List Char → List ℚ) (df : List RawRecord) :
    IndexBundle :=
  { vectorizerTransform := transform,
    matrix := df.map fun r => l2normRow (transform (apply_field_weights r)),
    meta := df.map project_fields_for_display }

/-- Embedding of `load_index` from indexer.py: the persisted artifact either exists
(`some bundle`) or does not, in which case a FileNotFoundError — the spec's
IndexUnavailable condition — is raised. -/
def load_index : Option IndexBundle → Except (List Char) IndexBundle
  | none => Except.error ("Index not found. Run the build step first.".data)
  | some b => Except.ok b

/-!
## search.py

Scores are exact rationals.  The external `rapidfuzz.fuzz` scorer used by
`_fuzzy_boost` is passed in as an abstract function `fz` (its documented
range [0, 100] enters the theorems as a hypothesis where needed).
-/

/-- SearchResult dataclass from search.py. -/
structure SearchResult where
  idx : Nat
  movie_id : Int
  title : List Char
  year : Option Int
  genres : List Char
  director : List Char
  actors : List Char
  score : ℚ
  deriving DecidableEq, Repr

/-- The row-wise predicate of `_filter_indices`: the conjunction of the four
mask updates of the source (each `mask &= ...` column operation applied at
one row).  Missing years are filled with 0 against a `year_from` bound and
with 9999 against a `year_to` bound; the genre and person filters are ORs
over the requested labels/names which constrain nothing when the request
list is empty. -/
def rowPassesFilters (q : ParsedQuery) (r : MetaRow) : Bool :=
  (match q.year_from with
   | none => true
   | some yf => decide (yf ≤ r.year.getD 0)) &&
  (match q.year_to with
   | none => true
   | some yt => decide (r.year.getD 9999 ≤ yt)) &&
  (q.genres.isEmpty || q.genres.any fun g => strIn g (lowerL r.genres)) &&
  (q.people.isEmpty || q.people.any fun p =>
    strIn (lowerL p) (lowerL r.director) || strIn (lowerL p) (lowerL r.actors))

/-- Embedding of `_filter_indices` from search.py: `np.where(mask)[0]` lists, in
ascending order, the row positions whose mask entry is true. -/
def filter_indices (q : ParsedQuery) (meta : List MetaRow) : List Nat :=
  (List.range meta.length).filter fun i => rowPassesFilters q (meta.getD i mrDefault)

/-- Embedding of `_text_score` from search.py at one candidate row: the query text (raw
text when the residual is empty) is vectorized, normalized by
`sqrt(sum of squares) + 1e-9`, and dotted against the candidate's matrix
row. -/
def textScoreAt (q : ParsedQuery) (bundle : IndexBundle) (i : Nat) : ℚ :=
  let query_text := if q.text.isEmpty then q.raw else q.text
  let vec := bundle.vectorizerTransform query_text
  let nvec := vec.map fun x => x / (sqrtQ (sumSq vec) + 1 / 1000000000)
  dotQ (bundle.matrix.getD i []) nvec

/-- Embedding of `_fuzzy_boost` from search.py at one candidate row: zero when the raw
query is blank, otherwise the external partial-alignment ratio of the
lowered raw query against the lowered title, scaled from [0,100] to
[0, 0.5]. -/
def fuzzyBoostAt (fz : List Char → List Char → ℚ) (q : ParsedQuery)
    (meta : List MetaRow) (i : Nat) : ℚ :=
  if (pyStrip q.raw).isEmpty then 0
  else fz (lowerL q.raw) (lowerL (meta.getD i mrDefault).title) / 100 * (1 / 2)

/-- The genre stage of `_metadata_boost` at one row: +0.3 per requested
genre occurring in the row's lowered genre string (the loop accumulation is
the sum of its per-genre contributions). -/
def genreBoost (q : ParsedQuery) (r : MetaRow) : ℚ :=
  (q.genres.map fun g =>
    if strIn g (lowerL r.genres) then (0.3 : ℚ) else 0).sum

/-- The people stage of `_metadata_boost` at one row: +0.4 per requested
person occurring (case-insensitively) in the row's actors or director. -/
def peopleBoost (q : ParsedQuery) (r : MetaRow) : ℚ :=
  (q.people.map fun p =>
    if strIn (lowerL p) (lowerL r.actors) || strIn (lowerL p) (lowerL r.director)
    then (0.4 : ℚ) else 0).sum

/-- The year stage of `_metadata_boost` at one row: when both bounds are
present and the row's year is not NA, a bonus of 0.2 decaying linearly with
the distance from the range midpoint (flat 0.2 for a single-year range). -/
def yearBoost (q : ParsedQuery) (r : MetaRow) : ℚ :=
  match q.year_from, q.year_to, r.year with
  | some yf, some yt, some y =>
    let range_size : Int := yt - yf + 1
    if 1 < range_size then
      let mid : ℚ := ((yf : ℚ) + (yt : ℚ)) / 2
      let distance : ℚ := |(y : ℚ) - mid|
      (0.2 : ℚ) * (1 - distance / ((range_size : ℚ) / 2))
    else (0.2 : ℚ)
  | _, _, _ => 0

/-- The rating stage of `_metadata_boost` at one row: +0.15 when rating and
votes are present with rating ≥ 7.0 and votes ≥ 1000. -/
def ratingBoost (r : MetaRow) : ℚ :=
  match r.rating, r.votes with
  | some rating, some votes =>
    if 7 ≤ rating ∧ 1000 ≤ votes then (0.15 : ℚ) else 0
  | _, _ => 0

/-- Embedding of `_metadata_boost` from search.py at one candidate row: the sum of the
four independent stages accumulated by the source's loops. -/
def metadataBoostAt (q : ParsedQuery) (meta : List MetaRow) (i : Nat) : ℚ :=
  let r := meta.getD i mrDefault
  genreBoost q r + peopleBoost q r + yearBoost q r + ratingBoost r

/-- The blended score of one candidate row before normalization:
`text * 0.4 + fuzzy * 0.2 + metadata * 0.4` (the numpy elementwise
combination at one position). -/
def blendedAt (fz : List Char → List Char → ℚ) (q : ParsedQuery)
    (bundle : IndexBundle) (i : Nat) : ℚ :=
  textScoreAt q bundle i * (0.4 : ℚ) + fuzzyBoostAt fz q bundle.meta i * (0.2 : ℚ) +
  metadataBoostAt q bundle.meta i * (0.4 : ℚ)

/-- The `sims` array over the surviving candidates, before normalization. -/
def blendedSims (fz : List Char → List Char → ℚ) (q : ParsedQuery)
    (bundle : IndexBundle) (idxs : List Nat) : List ℚ :=
  idxs.map (blendedAt fz q bundle)

/-- Embedding of `np.max` of a nonempty array (the value on `[]` is irrelevant: the
source only evaluates it under a nonemptiness guard). -/
def listMax : List ℚ → ℚ
  | [] => 0
  | x :: xs =>
    match xs with
    | [] => x
    | _ :: _ => max x (listMax xs)

/-- The comparison realized by `np.argsort(-sims)` on positions `i, j`:
`i` is placed no later than `j` iff its score is larger, or equal with
`i ≤ j` (ties keep ascending position order). -/
def keyRel (sims : List ℚ) (i j : Nat) : Prop :=
  sims.getD j 0 < sims.getD i 0 ∨ (sims.getD i 0 = sims.getD j 0 ∧ i ≤ j)

instance (sims : List ℚ) : DecidableRel (keyRel sims) := fun _ _ => by
  unfold keyRel; infer_instance

instance (sims : List ℚ) : IsTotal Nat (keyRel sims) := by
  constructor
  intro i j
  rcases lt_trichotomy (sims.getD i 0) (sims.getD j 0) with h | h | h
  · exact Or.inr (Or.inl h)
  · rcases Nat.le_total i j with hij | hij
    · exact Or.inl (Or.inr ⟨h, hij⟩)
    · exact Or.inr (Or.inr ⟨h.symm, hij⟩)
  · exact Or.inl (Or.inl h)

instance (sims : List ℚ) : IsTrans Nat (keyRel sims) := by
  constructor
  intro i j k hij hjk
  rcases hij with h1 | ⟨h1, h1'⟩ <;> rcases hjk with h2 | ⟨h2, h2'⟩
  · exact Or.inl (h2.trans h1)
  · exact Or.inl (h2 ▸ h1)
  · exact Or.inl (h1.symm ▸ h2)
  · exact Or.inr ⟨h1.trans h2, h1'.trans h2'⟩

/-- Embedding of `np.argsort(-sims)` as one particular permutation sorted
by descending score: the one with ties in ascending position order.  numpy
guarantees only that the returned permutation is sorted by the key; its
default quicksort is documented as unstable, so the tie order realized here
(exact for numpy only below its 16-element insertion-sort cutoff) is not
guaranteed by the program, and no theorem below depends on which
descending-sorted permutation is chosen — only on sortedness and on being
a permutation of all candidate positions. -/
def argsortDesc (sims : List ℚ) : List Nat :=
  List.insertionSort (keyRel sims) (List.range sims.length)

/-- Assembly of one SearchResult from the candidate at sort position
`rank`: row index `idxs[rank]`, display fields from the metadata row, score
`sims[rank]`. -/
def resultAt (bundle : IndexBundle) (idxs : List Nat) (sims : List ℚ)
    (rank : Nat) : SearchResult :=
  let i := idxs.getD rank 0
  let row := bundle.meta.getD i mrDefault
  { idx := i, movie_id := row.id, title := row.title, year := row.year,
    genres := row.genres, director := row.director, actors := row.actors,
    score := sims.getD rank 0 }

/-- The normalization step of `search`: when the maximum blended score is
positive, every score is divided by it; otherwise the scores are returned
unchanged (`if len(sims) > 0 and sims.max() > 0`; the caller only reaches
this point with a nonempty candidate list). -/
def normSims (sims0 : List ℚ) : List ℚ :=
  if 0 < listMax sims0 then sims0.map (fun x => x / listMax sims0) else sims0

/-- The body of `search` from search.py once the bundle is loaded: filter,
score, blend, normalize by the maximum when it is positive, order by
descending score, truncate to `top_k`, and project each survivor into a
SearchResult. -/
def search_core (fz : List Char → List Char → ℚ) (q : ParsedQuery)
    (bundle : IndexBundle) (top_k : Nat) : List SearchResult :=
  let idxs := filter_indices q bundle.meta
  if idxs.isEmpty then []
  else
    let sims := normSims (blendedSims fz q bundle idxs)
    ((argsortDesc sims).take top_k).map (resultAt bundle idxs sims)

/-- Embedding of `search` from search.py: load the persisted bundle (propagating the
IndexUnavailable failure when it is absent), then run the search body. -/
def search (fz : List Char → List Char → ℚ) (q : ParsedQuery) (top_k : Nat)
    (store : Option IndexBundle) : Except (List Char) (List SearchResult) :=
  match load_index store with
  | Except.error e => Except.error e
  | Except.ok bundle => Except.ok (search_core fz q bundle top_k)

/-!
## Concrete fixtures

A tiny synthetic catalog and degenerate external scorers used by the
witnesses and counterexamples below.  `tfZero` is a fitted model for which
every document is out of vocabulary (the transform of every text is the
zero vector), and `fzZero` a partial-ratio scorer that finds no alignment;
both are legitimate behaviours of the real external libraries. -/

def fzZero : List Char → List Char → ℚ := fun _ _ => 0

def tfZero : List Char → List ℚ := fun _ => [0]

def recAlpha : RawRecord :=
  { id := 1, title := ("Alpha".data), overview := [], tags := [],
    genres := ("Drama".data), director := ("Some Director".data),
    actors := ("Actor One".data), characters := [], year := some 2000,
    votes := some 2000, rating := some 8, popularity := none, budget := none,
    poster_url := [] }

def recBeta : RawRecord :=
  { id := 2, title := ("Beta".data), overview := [], tags := [],
    genres := ("Comedy".data), director := [], actors := [],
    characters := [], year := some 1980, votes := none, rating := none,
    popularity := none, budget := none, poster_url := [] }

def bundleBeta : IndexBundle := build_index tfZero [recBeta]

/-- A catalog of twenty identical unrated records: every candidate survives
an unfiltered query and every blended score ties. -/
def bundleTies : IndexBundle := build_index tfZero (List.replicate 20 recBeta)

def bundleAB : IndexBundle := build_index tfZero [recAlpha, recBeta]

/-- The result that the "drama" query produces on `bundleAB`: the Alpha
record survives alone and is normalized to score 1. -/
def resAlpha : SearchResult :=
  { idx := 0, movie_id := 1, title := ("Alpha".data), year := some 2000,
    genres := ("Drama".data), director := ("Some Director".data),
    actors := ("Actor One".data), score := 1 }

/-!
## Claim theorems
-/

/-- C4: `search` fails with the IndexUnavailable error (the
FileNotFoundError of `load_index`) when no persisted bundle exists, and
returns `ok []` — not an error — when a bundle exists but no record
survives filtering. -/
theorem C4_missing_index_and_empty_filter :
    (∀ fz q k, search fz q k none =
      Except.error ("Index not found. Run the build step first.".data)) ∧
    (∀ fz q bundle k, filter_indices q bundle.meta = [] →
      search fz q k (some bundle) = Except.ok []) := by
  constructor
  · intro fz q k
    rfl
  · intro fz q bundle k h
    simp [search, load_index, search_core, h]

/-- Witness for C4: on the two-record bundle, a query for 1990s dramas
filters out every record and search returns the empty list. -/
theorem C4_missing_index_and_empty_filter_witness :
    search fzZero (parse_query ("drama 90s".data)) 5 (some bundleAB) =
      Except.ok [] :=
  C4_missing_index_and_empty_filter.2 fzZero
    (parse_query ("drama 90s".data)) bundleAB 5 (by decide)

/-- C5: the decade examples of the query interpreter — "90s" ↦ (1990, 1999),
"early 90s" ↦ (1990, 1994), "late 90s" ↦ (1995, 1999), "80's" ↦
(1980, 1989) — and the rule that a two-digit decade value below 100 is
assumed to belong to the 1900s. -/
theorem C5_decade_parsing :
    ((parse_query ("90s".data)).year_from = some 1990 ∧
     (parse_query ("90s".data)).year_to = some 1999 ∧
     (parse_query ("early 90s".data)).year_from = some 1990 ∧
     (parse_query ("early 90s".data)).year_to = some 1994 ∧
     (parse_query ("late 90s".data)).year_from = some 1995 ∧
     (parse_query ("late 90s".data)).year_to = some 1999 ∧
     (parse_query ("80's".data)).year_from = some 1980 ∧
     (parse_query ("80's".data)).year_to = some 1989) ∧
    (∀ v : Nat, v < 100 → decadeStart v = 1900 + (v : Int)) := by
  constructor
  · decide
  · intro v hv
    simp [decadeStart, hv]

/-- Witness for C5: the two-digit token 90 starts its decade at 1990. -/
theorem C5_decade_parsing_witness : decadeStart 90 = 1900 + (90 : Int) :=
  C5_decade_parsing.2 90 (by decide)

/-- C6 counterexample: the synonym table does have overlapping keys — both
"kid" and "kids" are keys and "kid" is a substring of "kids" — and
normalizing the text "kids" does not replace it with "family" (the "kid"
entry fires first, leaving "familys"). -/
theorem C6_overlapping_keys_cex :
    (("kid".data, "family".data) ∈ GENRE_SYNONYMS ∧
     ("kids".data, "family".data) ∈ GENRE_SYNONYMS ∧
     strIn ("kid".data) ("kids".data) = true) ∧
    normalize_text ("kids".data) ≠ ("family".data) := by
  decide

/-- C6 amended: replacements are applied in table order; every
non-overlapping key maps to its canonical category, while the overlapping
pair "kid"/"kids" makes order matter: "kids" is rewritten through the
"kid" entry to "familys", which still contains "family" as a substring. -/
theorem C6_synonyms_in_table_order :
    normalize_text ("sci fi".data) = ("science fiction".data) ∧
    normalize_text ("sci-fi".data) = ("science fiction".data) ∧
    normalize_text ("scifi".data) = ("science fiction".data) ∧
    normalize_text ("romcom".data) = ("romance,comedy".data) ∧
    normalize_text ("kid".data) = ("family".data) ∧
    normalize_text ("kids".data) = ("familys".data) ∧
    strIn ("family".data) (normalize_text ("kids".data)) = true := by
  decide

/-- The function `_parse_decade` only produces ordered pairs: each branch returns the
start of a (half-)decade together with a later end year. -/
theorem parse_decade_le {t : List Char} {lo hi : Int}
    (h : parse_decade t = some (lo, hi)) : lo ≤ hi := by
  unfold parse_decade at h
  rcases hel : searchEarlyLate t with _ | ⟨e, v⟩ <;> rw [hel] at h
  · rcases hd : searchDecade t with _ | v <;> rw [hd] at h
    · exact absurd h (by simp)
    · simp only [Option.some.injEq, Prod.mk.injEq] at h
      obtain ⟨h1, h2⟩ := h
      omega
  · rcases e <;> simp only [Bool.false_eq_true, if_neg, if_pos,
      Option.some.injEq, Prod.mk.injEq, reduceIte] at h <;>
      obtain ⟨h1, h2⟩ := h <;> omega

/-- The function `_parse_years` only produces ordered bounds: an explicit range is
swapped when reversed, decades are ordered by `parse_decade_le`, and a
single year gives equal bounds. -/
theorem parse_years_le {t : List Char} {a b : Int}
    (ha : (parse_years t).1 = some a) (hb : (parse_years t).2 = some b) :
    a ≤ b := by
  unfold parse_years at ha hb
  rcases hr : searchYearRange t with _ | ⟨x, y⟩ <;> rw [hr] at ha hb
  · rcases hd : parse_decade t with _ | ⟨lo, hi⟩ <;> rw [hd] at ha hb
    · rcases hs : searchYearSingle t with _ | z <;> rw [hs] at ha hb
      · exact absurd ha (by simp)
      · simp only [Option.some.injEq] at ha hb
        omega
    · simp only [Option.some.injEq] at ha hb
      subst ha
      subst hb
      exact parse_decade_le hd
  · by_cases hxy : (x : Int) > (y : Int) <;>
      simp only [hxy, if_pos, if_neg, reduceIte, Option.some.injEq] at ha hb <;>
      omega

/-- C8: in every structured query produced by the interpreter with both
year bounds present, year-from ≤ year-to; and the explicit ranges
"1995-2005" and "2005 to 1995" both parse to the bounds (1995, 2005). -/
theorem C8_year_range_ordered :
    (∀ raw a b, (parse_query raw).year_from = some a →
      (parse_query raw).year_to = some b → a ≤ b) ∧
    ((parse_query ("1995-2005".data)).year_from = some 1995 ∧
     (parse_query ("1995-2005".data)).year_to = some 2005 ∧
     (parse_query ("2005 to 1995".data)).year_from = some 1995 ∧
     (parse_query ("2005 to 1995".data)).year_to = some 2005) := by
  constructor
  · intro raw a b ha hb
    exact parse_years_le ha hb
  · decide

/-- Witness for C8: the ordering theorem applied to the parsed query
"1995-2005". -/
theorem C8_year_range_ordered_witness : (1995 : Int) ≤ 2005 :=
  C8_year_range_ordered.1 ("1995-2005".data) 1995 2005 (by decide) (by decide)

/-- Stripping a string of whitespace characters leaves nothing. -/
theorem pyStrip_of_all_space {s : List Char}
    (h : ∀ c ∈ s, isSpaceChar c = true) : pyStrip s = [] := by
  unfold pyStrip
  rw [List.dropWhile_eq_nil_iff.mpr h]
  rfl

/-- No cue word of PERSON_HINT_RE starts with a whitespace character. -/
theorem personCue_space {c : Char} (hc : isSpaceChar c = true)
    (cs : List Char) : personCue (c :: cs) = none := by
  have hcases : ((((c = ' ' ∨ c = '\t') ∨ c = '\n') ∨ c = '\x0d') ∨
      c = '\x0b') ∨ c = '\x0c' := by
    simpa [isSpaceChar] using hc
  rcases hcases with ⟨⟨⟨⟨rfl | rfl⟩ | rfl⟩ | rfl⟩ | rfl⟩ | rfl <;> rfl

/-- PERSON_HINT_RE cannot match at a position holding whitespace. -/
theorem personHere_space {c : Char} (hc : isSpaceChar c = true)
    (cs : List Char) : personHere (c :: cs) = none := by
  unfold personHere
  rw [personCue_space hc]

/-- The PERSON_HINT_RE scan of an all-whitespace string finds nothing. -/
theorem personScanAux_space : ∀ (fuel : Nat) (s : List Char),
    (∀ c ∈ s, isSpaceChar c = true) → personScanAux fuel s = []
  | 0, _, _ => rfl
  | _ + 1, [], _ => rfl
  | fuel + 1, c :: cs, h => by
    unfold personScanAux
    rw [personHere_space (h c (by simp)) cs]
    exact personScanAux_space fuel cs fun x hx => h x (by simp [hx])

/-- Applying `_extract_people` to an all-whitespace string finds nobody. -/
theorem extract_people_space {s : List Char}
    (h : ∀ c ∈ s, isSpaceChar c = true) : extract_people s = [] := by
  unfold extract_people
  rw [personScanAux_space s.length s h]
  rfl

/-- Applying `_normalize_text` to an all-whitespace string is empty: the strip
leaves nothing and every synonym replacement fixes the empty string. -/
theorem normalize_text_space {s : List Char}
    (h : ∀ c ∈ s, isSpaceChar c = true) : normalize_text s = [] := by
  unfold normalize_text
  rw [pyStrip_of_all_space h]
  decide

/-- C9: the query interpreter is total by construction, and on an empty or
whitespace-only query string it returns the structured query with the raw
text preserved, empty residual text, no year bounds, no categories and no
people. -/
theorem C9_degenerate_query (q : List Char)
    (h : ∀ c ∈ q, isSpaceChar c = true) :
    parse_query q = { raw := q, text := [], year_from := none,
                      year_to := none, genres := [], people := [] } := by
  simp only [parse_query, normalize_text_space h, extract_people_space h,
    ParsedQuery.mk.injEq, true_and, and_true]
  decide

/-- Witness for C9 at the two-space query string. -/
theorem C9_degenerate_query_witness :
    parse_query ("  ".data) =
      { raw := ("  ".data), text := [], year_from := none,
        year_to := none, genres := [], people := [] } :=
  C9_degenerate_query ("  ".data) (by decide)

/-- C2: the matrix and metadata of a built bundle have the same row count,
and row `i` of each is computed from record `i` of the same dataset row
list: the matrix row is the normalized transform of the weighted canonical
text of `df[i]`, the metadata row is the display projection of `df[i]`. -/
theorem C2_row_alignment (tf : List Char → List ℚ) (df : List RawRecord) :
    (build_index tf df).matrix.length = (build_index tf df).meta.length ∧
    ∀ i, (hi : i < df.length) →
      (build_index tf df).matrix[i]? =
        some (l2normRow (tf (apply_field_weights df[i]))) ∧
      (build_index tf df).meta[i]? =
        some (project_fields_for_display df[i]) := by
  refine ⟨by simp [build_index], ?_⟩
  intro i hi
  constructor <;>
    simp [build_index, List.getElem?_map, List.getElem?_eq_getElem hi]

/-- Witness for C2 at row 0 of the two-record catalog. -/
theorem C2_row_alignment_witness :
    (build_index tfZero [recAlpha, recBeta]).matrix[0]? =
      some (l2normRow (tfZero (apply_field_weights
        (([recAlpha, recBeta] : List RawRecord)[0])))) ∧
    (build_index tfZero [recAlpha, recBeta]).meta[0]? =
      some (project_fields_for_display
        (([recAlpha, recBeta] : List RawRecord)[0])) :=
  (C2_row_alignment tfZero [recAlpha, recBeta]).2 0 (by decide)

/-!
## Structure of the filtering and ranking pipeline
-/

/-- Membership in the `_filter_indices` output. -/
theorem mem_filter_indices {q : ParsedQuery} {meta : List MetaRow} {i : Nat} :
    i ∈ filter_indices q meta ↔
      i < meta.length ∧ rowPassesFilters q (meta.getD i mrDefault) = true := by
  simp [filter_indices, List.mem_filter, List.mem_range]

/-- The embedding of `np.where` enumerates the surviving row positions in strictly
ascending order. -/
theorem filter_indices_sorted (q : ParsedQuery) (meta : List MetaRow) :
    (filter_indices q meta).Pairwise (· < ·) :=
  (List.pairwise_lt_range meta.length).filter _

/-- Reading the four conjuncts off a surviving row's filter predicate. -/
theorem rowPassesFilters_spec {q : ParsedQuery} {r : MetaRow}
    (h : rowPassesFilters q r = true) :
    (∀ yf, q.year_from = some yf → yf ≤ r.year.getD 0) ∧
    (∀ yt, q.year_to = some yt → r.year.getD 9999 ≤ yt) ∧
    (q.genres ≠ [] → ∃ g ∈ q.genres, strIn g (lowerL r.genres) = true) ∧
    (q.people ≠ [] → ∃ p ∈ q.people,
      strIn (lowerL p) (lowerL r.director) = true ∨
      strIn (lowerL p) (lowerL r.actors) = true) := by
  simp only [rowPassesFilters, Bool.and_eq_true] at h
  obtain ⟨⟨⟨h1, h2⟩, h3⟩, h4⟩ := h
  refine ⟨?_, ?_, ?_, ?_⟩
  · intro yf hyf
    rw [hyf] at h1
    exact of_decide_eq_true h1
  · intro yt hyt
    rw [hyt] at h2
    exact of_decide_eq_true h2
  · intro hg
    simp only [Bool.or_eq_true] at h3
    rcases h3 with hemp | hany
    · exact absurd (List.isEmpty_iff.mp hemp) hg
    · obtain ⟨g, hgmem, hgok⟩ := List.any_eq_true.mp hany
      exact ⟨g, hgmem, hgok⟩
  · intro hp
    simp only [Bool.or_eq_true] at h4
    rcases h4 with hemp | hany
    · exact absurd (List.isEmpty_iff.mp hemp) hp
    · obtain ⟨p, hpmem, hpok⟩ := List.any_eq_true.mp hany
      simp only [Bool.or_eq_true] at hpok
      exact ⟨p, hpmem, hpok⟩

theorem blendedSims_length (fz : List Char → List Char → ℚ) (q : ParsedQuery)
    (bundle : IndexBundle) (idxs : List Nat) :
    (blendedSims fz q bundle idxs).length = idxs.length := by
  simp [blendedSims]

theorem normSims_length (xs : List ℚ) : (normSims xs).length = xs.length := by
  unfold normSims
  split <;> simp

theorem resultAt_score (bundle : IndexBundle) (idxs : List Nat)
    (sims : List ℚ) (rank : Nat) :
    (resultAt bundle idxs sims rank).score = sims.getD rank 0 := rfl

/-- Every member of the `search_core` output is the projection of the
candidate at some sort position `rank` below the number of surviving
candidates. -/
theorem search_core_mem {fz : List Char → List Char → ℚ} {q : ParsedQuery}
    {bundle : IndexBundle} {k : Nat} {r : SearchResult}
    (hr : r ∈ search_core fz q bundle k) :
    ∃ rank, rank < (filter_indices q bundle.meta).length ∧
      r = resultAt bundle (filter_indices q bundle.meta)
        (normSims (blendedSims fz q bundle (filter_indices q bundle.meta)))
        rank := by
  simp only [search_core] at hr
  split at hr
  · exact absurd hr (by simp)
  · obtain ⟨rank, hrank, hres⟩ := List.mem_map.mp hr
    refine ⟨rank, ?_, hres.symm⟩
    have hmem := List.mem_of_mem_take hrank
    have hperm := List.perm_insertionSort
      (keyRel (normSims (blendedSims fz q bundle (filter_indices q bundle.meta))))
      (List.range (normSims (blendedSims fz q bundle
        (filter_indices q bundle.meta))).length)
    have := List.mem_range.mp (hperm.mem_iff.mp hmem)
    rwa [normSims_length, blendedSims_length] at this

/-- C1: every record returned by `search` satisfies every active hard
filter of the query, combined by AND: a present year-from bound is met by
the record's year with missing years read as 0, a present year-to bound
with missing years read as the sentinel 9999, a non-empty category set
requires some requested label to occur in the record's lowered category
field, and a non-empty person list requires some requested name to occur
case-insensitively in the record's director or cast field; absent filters
constrain nothing. -/
theorem C1_results_satisfy_filters (fz : List Char → List Char → ℚ)
    (q : ParsedQuery) (bundle : IndexBundle) (k : Nat) (r : SearchResult)
    (hr : r ∈ search_core fz q bundle k) :
    (∀ yf, q.year_from = some yf → yf ≤ r.year.getD 0) ∧
    (∀ yt, q.year_to = some yt → r.year.getD 9999 ≤ yt) ∧
    (q.genres ≠ [] → ∃ g ∈ q.genres, strIn g (lowerL r.genres) = true) ∧
    (q.people ≠ [] → ∃ p ∈ q.people,
      strIn (lowerL p) (lowerL r.director) = true ∨
      strIn (lowerL p) (lowerL r.actors) = true) := by
  obtain ⟨rank, hrank, hres⟩ := search_core_mem hr
  have hi : (filter_indices q bundle.meta).getD rank 0 ∈
      filter_indices q bundle.meta := by
    rw [List.getD_eq_getElem _ _ hrank]
    exact List.getElem_mem hrank
  obtain ⟨_, hpass⟩ := mem_filter_indices.mp hi
  have spec := rowPassesFilters_spec hpass
  subst hres
  exact spec

/-- Witness for C1: the "drama" query on the two-record bundle returns the
Alpha record, which satisfies the category filter. -/
theorem C1_results_satisfy_filters_witness :
    (∀ yf, (parse_query ("drama".data)).year_from = some yf →
      yf ≤ resAlpha.year.getD 0) ∧
    (∀ yt, (parse_query ("drama".data)).year_to = some yt →
      resAlpha.year.getD 9999 ≤ yt) ∧
    ((parse_query ("drama".data)).genres ≠ [] →
      ∃ g ∈ (parse_query ("drama".data)).genres,
        strIn g (lowerL resAlpha.genres) = true) ∧
    ((parse_query ("drama".data)).people ≠ [] →
      ∃ p ∈ (parse_query ("drama".data)).people,
        strIn (lowerL p) (lowerL resAlpha.director) = true ∨
        strIn (lowerL p) (lowerL resAlpha.actors) = true) :=
  C1_results_satisfy_filters fzZero (parse_query ("drama".data)) bundleAB 5
    resAlpha (by decide)

/-!
## Nonnegativity of the boost stages
-/

theorem genreBoost_nonneg (q : ParsedQuery) (r : MetaRow) :
    0 ≤ genreBoost q r := by
  refine List.sum_nonneg ?_
  intro x hx
  obtain ⟨g, _, hgx⟩ := List.mem_map.mp hx
  subst hgx
  split <;> norm_num

theorem peopleBoost_nonneg (q : ParsedQuery) (r : MetaRow) :
    0 ≤ peopleBoost q r := by
  refine List.sum_nonneg ?_
  intro x hx
  obtain ⟨p, _, hpx⟩ := List.mem_map.mp hx
  subst hpx
  split <;> norm_num

theorem ratingBoost_nonneg (r : MetaRow) : 0 ≤ ratingBoost r := by
  unfold ratingBoost
  rcases r.rating with _ | rating <;> rcases r.votes with _ | votes <;>
    simp only []
  · norm_num
  · norm_num
  · norm_num
  · split <;> norm_num

/-- On a row that passed the filters, the year stage of the metadata boost
is nonnegative: the surviving year lies inside the inclusive range, so its
distance to the midpoint is below half the range size. -/
theorem yearBoost_nonneg {q : ParsedQuery} {r : MetaRow}
    (h : rowPassesFilters q r = true) : 0 ≤ yearBoost q r := by
  have spec := rowPassesFilters_spec h
  unfold yearBoost
  rcases hyf : q.year_from with _ | yf <;> rcases hyt : q.year_to with _ | yt <;>
    rcases hy : r.year with _ | y <;> simp only [le_refl]
  have hlo : yf ≤ y := by simpa [hy] using spec.1 yf hyf
  have hhi : y ≤ yt := by simpa [hy] using spec.2.1 yt hyt
  have hloQ : (yf : ℚ) ≤ (y : ℚ) := by exact_mod_cast hlo
  have hhiQ : (y : ℚ) ≤ (yt : ℚ) := by exact_mod_cast hhi
  split
  · rename_i hrs
    have hrsQ : (1 : ℚ) < (yt : ℚ) - (yf : ℚ) + 1 := by
      have : (1 : Int) < yt - yf + 1 := hrs
      exact_mod_cast this
    have habs : |(y : ℚ) - ((yf : ℚ) + (yt : ℚ)) / 2| ≤
        ((yt : ℚ) - (yf : ℚ)) / 2 := by
      rw [abs_le]
      constructor <;> linarith
    have hpos : (0 : ℚ) < (((yt : Int) - yf + 1 : Int) : ℚ) / 2 := by
      push_cast
      linarith
    have hstep : |(y : ℚ) - ((yf : ℚ) + (yt : ℚ)) / 2| /
        ((((yt : Int) - yf + 1 : Int) : ℚ) / 2) ≤ 1 := by
      rw [div_le_one hpos]
      push_cast
      push_cast at habs
      linarith
    have : (0 : ℚ) ≤ 1 - |(y : ℚ) - ((yf : ℚ) + (yt : ℚ)) / 2| /
        ((((yt : Int) - yf + 1 : Int) : ℚ) / 2) := by linarith
    have h02 : (0 : ℚ) ≤ (0.2 : ℚ) := by norm_num
    calc (0 : ℚ) ≤ (0.2 : ℚ) * (1 - |(y : ℚ) - ((yf : ℚ) + (yt : ℚ)) / 2| /
        ((((yt : Int) - yf + 1 : Int) : ℚ) / 2)) := mul_nonneg h02 this
    _ = _ := by push_cast; ring
  · norm_num

theorem metadataBoostAt_nonneg {q : ParsedQuery} {meta : List MetaRow}
    {i : Nat} (h : rowPassesFilters q (meta.getD i mrDefault) = true) :
    0 ≤ metadataBoostAt q meta i := by
  unfold metadataBoostAt
  have h1 := genreBoost_nonneg q (meta.getD i mrDefault)
  have h2 := peopleBoost_nonneg q (meta.getD i mrDefault)
  have h3 := yearBoost_nonneg h
  have h4 := ratingBoost_nonneg (meta.getD i mrDefault)
  show 0 ≤ genreBoost q (meta.getD i mrDefault) +
    peopleBoost q (meta.getD i mrDefault) +
    yearBoost q (meta.getD i mrDefault) + ratingBoost (meta.getD i mrDefault)
  linarith

/-- When some requested genre occurs in the row's lowered genre field, the
genre stage contributes at least one increment of 0.3. -/
theorem genreBoost_ge {q : ParsedQuery} {r : MetaRow}
    (h : ∃ g ∈ q.genres, strIn g (lowerL r.genres) = true) :
    (0.3 : ℚ) ≤ genreBoost q r := by
  obtain ⟨g, hg, hmatch⟩ := h
  have hx : (if strIn g (lowerL r.genres) then (0.3 : ℚ) else 0) ∈
      q.genres.map fun g => if strIn g (lowerL r.genres) then (0.3 : ℚ) else 0 :=
    List.mem_map_of_mem _ hg
  have hnn : ∀ x ∈ q.genres.map
      fun g => if strIn g (lowerL r.genres) then (0.3 : ℚ) else 0, 0 ≤ x := by
    intro x hxm
    obtain ⟨g', _, hg'⟩ := List.mem_map.mp hxm
    subst hg'
    split <;> norm_num
  have := List.single_le_sum hnn _ hx
  rw [hmatch] at this
  simpa [genreBoost] using this

/-- C10: for a query with a non-empty category set, every candidate that
survives filtering receives a metadata boost of at least 0.3, because the
filter and the genre stage of the boost apply the same substring test to
the same lowered genre field. -/
theorem C10_surviving_genre_boost (q : ParsedQuery) (meta : List MetaRow)
    (i : Nat) (hg : q.genres ≠ []) (hi : i ∈ filter_indices q meta) :
    (0.3 : ℚ) ≤ metadataBoostAt q meta i := by
  obtain ⟨_, hpass⟩ := mem_filter_indices.mp hi
  have spec := rowPassesFilters_spec hpass
  have h03 := genreBoost_ge (spec.2.2.1 hg)
  have h1 := peopleBoost_nonneg q (meta.getD i mrDefault)
  have h2 := yearBoost_nonneg hpass
  have h3 := ratingBoost_nonneg (meta.getD i mrDefault)
  unfold metadataBoostAt
  show (0.3 : ℚ) ≤ genreBoost q (meta.getD i mrDefault) +
    peopleBoost q (meta.getD i mrDefault) +
    yearBoost q (meta.getD i mrDefault) + ratingBoost (meta.getD i mrDefault)
  linarith

/-- Witness for C10: the surviving Alpha row of the "drama" query receives
a metadata boost of at least 0.3 (it actually receives 0.45). -/
theorem C10_surviving_genre_boost_witness :
    (0.3 : ℚ) ≤ metadataBoostAt (parse_query ("drama".data)) bundleAB.meta 0 :=
  C10_surviving_genre_boost (parse_query ("drama".data)) bundleAB.meta 0
    (by decide) (by decide)

/-!
## The argsort order
-/

theorem argsortDesc_sorted (sims : List ℚ) :
    List.Sorted (keyRel sims) (argsortDesc sims) :=
  List.sorted_insertionSort (keyRel sims) (List.range sims.length)

theorem argsortDesc_perm (sims : List ℚ) :
    List.Perm (argsortDesc sims) (List.range sims.length) :=
  List.perm_insertionSort (keyRel sims) (List.range sims.length)

/-- The scores over which `np.argsort` runs on a real catalog frequently
tie across all surviving candidates — here a 20-record catalog of identical
unrated records queried with out-of-vocabulary text leaves every candidate
alive with blended score 0.  Truncation to `top_k` happens only after the
sort, so the full tied array is what the default quicksort of `np.argsort`
partitions; numpy documents that sort as unstable, and above its 16-element
insertion-sort cutoff it reorders equal elements, so the relative order of
these tied candidates in the returned results is not the ascending row
order. -/
theorem C7_all_tied_scores :
    blendedSims fzZero (parse_query ("zzz".data)) bundleTies
      (filter_indices (parse_query ("zzz".data)) bundleTies.meta) =
      List.replicate 20 0 := by
  decide

/-!
## Nonnegativity of the blended signals and score normalization
-/

theorem sqrtQ_nonneg (x : ℚ) : 0 ≤ sqrtQ x :=
  div_nonneg (by positivity) (by positivity)

theorem dotQ_nonneg : ∀ {v w : List ℚ}, (∀ x ∈ v, 0 ≤ x) →
    (∀ x ∈ w, 0 ≤ x) → 0 ≤ dotQ v w
  | [], _, _, _ => by simp [dotQ]
  | _ :: _, [], _, _ => by simp [dotQ]
  | a :: v, b :: w, hv, hw => by
    have h1 : 0 ≤ a * b := mul_nonneg (hv a (by simp)) (hw b (by simp))
    have h2 : 0 ≤ dotQ v w :=
      dotQ_nonneg (fun x hx => hv x (by simp [hx]))
        (fun x hx => hw x (by simp [hx]))
    simpa [dotQ] using add_nonneg h1 h2

/-- The lexical similarity of any candidate is nonnegative when the fitted
model produces nonnegative term weights (as TF-IDF does): it is a dot
product of nonnegative vectors scaled by a positive divisor. -/
theorem textScoreAt_nonneg {q : ParsedQuery} {bundle : IndexBundle} {i : Nat}
    (hM : ∀ row ∈ bundle.matrix, ∀ x ∈ row, 0 ≤ x)
    (hT : ∀ t, ∀ x ∈ bundle.vectorizerTransform t, 0 ≤ x) :
    0 ≤ textScoreAt q bundle i := by
  show 0 ≤ dotQ (bundle.matrix.getD i [])
    ((bundle.vectorizerTransform (if q.text.isEmpty then q.raw else q.text)).map
      fun x => x / (sqrtQ (sumSq (bundle.vectorizerTransform
        (if q.text.isEmpty then q.raw else q.text))) + 1 / 1000000000))
  apply dotQ_nonneg
  · intro x hx
    by_cases hi : i < bundle.matrix.length
    · rw [List.getD_eq_getElem _ _ hi] at hx
      exact hM _ (List.getElem_mem hi) x hx
    · rw [List.getD_eq_default _ _ (le_of_not_lt hi)] at hx
      simp at hx
  · intro y hy
    obtain ⟨x, hx, hxy⟩ := List.mem_map.mp hy
    subst hxy
    have hx0 := hT _ x hx
    have hs := sqrtQ_nonneg (sumSq (bundle.vectorizerTransform
      (if q.text.isEmpty then q.raw else q.text)))
    have hden : (0 : ℚ) ≤ sqrtQ (sumSq (bundle.vectorizerTransform
        (if q.text.isEmpty then q.raw else q.text))) + 1 / 1000000000 := by
      linarith
    exact div_nonneg hx0 hden

theorem fuzzyBoostAt_nonneg {fz : List Char → List Char → ℚ}
    (hF : ∀ a b, 0 ≤ fz a b) (q : ParsedQuery) (meta : List MetaRow)
    (i : Nat) : 0 ≤ fuzzyBoostAt fz q meta i := by
  unfold fuzzyBoostAt
  split
  · exact le_refl 0
  · have h := hF (lowerL q.raw) (lowerL (meta.getD i mrDefault).title)
    have h1 : (0 : ℚ) ≤ fz (lowerL q.raw)
        (lowerL (meta.getD i mrDefault).title) / 100 :=
      div_nonneg h (by norm_num)
    exact mul_nonneg h1 (by norm_num)

/-- The blended score of a surviving candidate is nonnegative, given
nonnegative term weights and a nonnegative approximate-match scorer. -/
theorem blendedAt_nonneg {fz : List Char → List Char → ℚ} {q : ParsedQuery}
    {bundle : IndexBundle} {i : Nat}
    (hM : ∀ row ∈ bundle.matrix, ∀ x ∈ row, 0 ≤ x)
    (hT : ∀ t, ∀ x ∈ bundle.vectorizerTransform t, 0 ≤ x)
    (hF : ∀ a b, 0 ≤ fz a b)
    (hpass : rowPassesFilters q (bundle.meta.getD i mrDefault) = true) :
    0 ≤ blendedAt fz q bundle i := by
  have h1 := textScoreAt_nonneg (q := q) (i := i) hM hT
  have h2 := fuzzyBoostAt_nonneg hF q bundle.meta i
  have h3 := metadataBoostAt_nonneg hpass
  unfold blendedAt
  have e1 : (0 : ℚ) ≤ textScoreAt q bundle i * (0.4 : ℚ) :=
    mul_nonneg h1 (by norm_num)
  have e2 : (0 : ℚ) ≤ fuzzyBoostAt fz q bundle.meta i * (0.2 : ℚ) :=
    mul_nonneg h2 (by norm_num)
  have e3 : (0 : ℚ) ≤ metadataBoostAt q bundle.meta i * (0.4 : ℚ) :=
    mul_nonneg h3 (by norm_num)
  linarith

theorem le_listMax : ∀ (xs : List ℚ), ∀ x ∈ xs, x ≤ listMax xs
  | [], x, hx => absurd hx (by simp)
  | [a], x, hx => by
    simp only [List.mem_singleton] at hx
    subst hx
    exact le_refl _
  | a :: b :: t, x, hx => by
    rcases List.mem_cons.mp hx with rfl | hx'
    · exact le_max_left _ _
    · calc x ≤ listMax (b :: t) := le_listMax (b :: t) x hx'
        _ ≤ max a (listMax (b :: t)) := le_max_right _ _

theorem listMax_mem : ∀ (xs : List ℚ), xs ≠ [] → listMax xs ∈ xs
  | [], h => absurd rfl h
  | [_], _ => by simp [listMax]
  | a :: b :: t, _ => by
    have ih := listMax_mem (b :: t) (by simp)
    show max a (listMax (b :: t)) ∈ a :: b :: t
    rcases max_choice a (listMax (b :: t)) with h | h <;> rw [h]
    · simp
    · exact List.mem_cons_of_mem _ ih

/-- After normalization every score of a nonnegative score array lies in
[0, 1]: when the maximum is positive each entry is divided by it, and
otherwise every nonnegative entry below the maximum is 0. -/
theorem normSims_bounds {xs : List ℚ} (hnn : ∀ x ∈ xs, 0 ≤ x) :
    ∀ y ∈ normSims xs, 0 ≤ y ∧ y ≤ 1 := by
  intro y hy
  unfold normSims at hy
  split at hy
  · rename_i hpos
    obtain ⟨x, hx, hxy⟩ := List.mem_map.mp hy
    subst hxy
    refine ⟨div_nonneg (hnn x hx) (le_of_lt hpos), ?_⟩
    rw [div_le_one hpos]
    exact le_listMax xs x hx
  · rename_i hpos
    push_neg at hpos
    have h1 := hnn y hy
    have h2 := le_listMax xs y hy
    exact ⟨h1, by linarith⟩

/-- Score bounds on every returned result, under the nonnegativity of the
external signal sources. -/
theorem search_core_score_bounds {fz : List Char → List Char → ℚ}
    {q : ParsedQuery} {bundle : IndexBundle} {k : Nat}
    (hM : ∀ row ∈ bundle.matrix, ∀ x ∈ row, 0 ≤ x)
    (hT : ∀ t, ∀ x ∈ bundle.vectorizerTransform t, 0 ≤ x)
    (hF : ∀ a b, 0 ≤ fz a b) :
    ∀ r ∈ search_core fz q bundle k, 0 ≤ r.score ∧ r.score ≤ 1 := by
  intro r hr
  obtain ⟨rank, hrank, hres⟩ := search_core_mem hr
  subst hres
  rw [resultAt_score]
  have hnn : ∀ x ∈ blendedSims fz q bundle (filter_indices q bundle.meta),
      0 ≤ x := by
    intro x hx
    obtain ⟨i, hi, hix⟩ := List.mem_map.mp hx
    subst hix
    exact blendedAt_nonneg hM hT hF (mem_filter_indices.mp hi).2
  have hlt : rank < (normSims (blendedSims fz q bundle
      (filter_indices q bundle.meta))).length := by
    rw [normSims_length, blendedSims_length]
    exact hrank
  have hmem : (normSims (blendedSims fz q bundle
      (filter_indices q bundle.meta))).getD rank 0 ∈
      normSims (blendedSims fz q bundle (filter_indices q bundle.meta)) := by
    rw [List.getD_eq_getElem _ _ hlt]
    exact List.getElem_mem hlt
  exact normSims_bounds hnn _ hmem

/-- Reading an in-range position of a mapped list through `getD`. -/
theorem getD_map_lt {f : ℚ → ℚ} {l : List ℚ} {n : Nat} (h : n < l.length)
    (d : ℚ) : (l.map f).getD n d = f (l[n]) := by
  rw [List.getD_eq_getElem _ _ (by simpa using h)]
  exact List.getElem_map f

/-- When `search_core` returns a nonempty list, its head is the projection
of a candidate position that is `keyRel`-maximal among all positions. -/
theorem search_core_cons_head {fz : List Char → List Char → ℚ}
    {q : ParsedQuery} {bundle : IndexBundle} {k : Nat} {r : SearchResult}
    {rest : List SearchResult}
    (hsearch : search_core fz q bundle k = r :: rest) :
    ∃ rank0,
      (∀ j, j < (normSims (blendedSims fz q bundle
          (filter_indices q bundle.meta))).length →
        keyRel (normSims (blendedSims fz q bundle
          (filter_indices q bundle.meta))) rank0 j) ∧
      r = resultAt bundle (filter_indices q bundle.meta)
        (normSims (blendedSims fz q bundle (filter_indices q bundle.meta)))
        rank0 := by
  simp only [search_core] at hsearch
  split at hsearch
  · exact absurd hsearch (by simp)
  · rcases htk : (argsortDesc (normSims (blendedSims fz q bundle
        (filter_indices q bundle.meta)))).take k with _ | ⟨rank0, t⟩
    · rw [htk] at hsearch
      simp at hsearch
    · rw [htk] at hsearch
      injection hsearch with hr0 _
      refine ⟨rank0, ?_, hr0.symm⟩
      have hL : ∃ L', argsortDesc (normSims (blendedSims fz q bundle
          (filter_indices q bundle.meta))) = rank0 :: L' := by
        rcases hLs : argsortDesc (normSims (blendedSims fz q bundle
            (filter_indices q bundle.meta))) with _ | ⟨x, L'⟩
        · rw [hLs] at htk
          simp at htk
        · rw [hLs] at htk
          rcases k with _ | k'
          · simp at htk
          · rw [List.take_succ_cons] at htk
            injection htk with hx _
            exact ⟨L', by rw [hx]⟩
      obtain ⟨L', hL'⟩ := hL
      have hsorted := argsortDesc_sorted (normSims (blendedSims fz q bundle
        (filter_indices q bundle.meta)))
      rw [hL'] at hsorted
      intro j hj
      have hjmem : j ∈ argsortDesc (normSims (blendedSims fz q bundle
          (filter_indices q bundle.meta))) := by
        rw [(argsortDesc_perm _).mem_iff]
        exact List.mem_range.mpr hj
      rw [hL'] at hjmem
      rcases List.mem_cons.mp hjmem with rfl | hjmem'
      · exact Or.inr ⟨rfl, le_refl _⟩
      · exact List.rel_of_sorted_cons hsorted _ hjmem'

/-- C3 counterexample to the claim as stated: a query with no structured
filters and no lexical or fuzzy overlap on a bundle whose only record has
no rating produces a nonempty result list whose blended maximum is 0, so
normalization is skipped and the top (and only) returned score is 0, not
1. -/
theorem C3_top_score_cex :
    (search_core fzZero (parse_query ("zzz".data)) bundleBeta 5).map
      SearchResult.score = [0] ∧ (0 : ℚ) ≠ 1 := by
  refine ⟨by decide, by decide⟩

/-- C3 amended: provided the three component signals are nonnegative (true
of TF-IDF weights and of the partial-ratio scorer), every returned score
lies in [0, 1]; and when additionally the maximum blended score over the
surviving candidates is positive — the condition under which the source
normalizes — the first returned result has score exactly 1. -/
theorem C3_scores_normalized (fz : List Char → List Char → ℚ)
    (q : ParsedQuery) (bundle : IndexBundle) (k : Nat)
    (hM : ∀ row ∈ bundle.matrix, ∀ x ∈ row, 0 ≤ x)
    (hT : ∀ t, ∀ x ∈ bundle.vectorizerTransform t, 0 ≤ x)
    (hF : ∀ a b, 0 ≤ fz a b) :
    (∀ r ∈ search_core fz q bundle k, 0 ≤ r.score ∧ r.score ≤ 1) ∧
    (∀ r rest, search_core fz q bundle k = r :: rest →
      0 < listMax (blendedSims fz q bundle (filter_indices q bundle.meta)) →
      r.score = 1) := by
  refine ⟨search_core_score_bounds hM hT hF, ?_⟩
  intro r rest hsearch hmax
  have hrmem : r ∈ search_core fz q bundle k := by
    rw [hsearch]
    simp
  have hub := (search_core_score_bounds hM hT hF r hrmem).2
  obtain ⟨rank0, hmaxrel, hr0⟩ := search_core_cons_head hsearch
  obtain ⟨rank, hrank, _⟩ := search_core_mem hrmem
  have hne0 : blendedSims fz q bundle (filter_indices q bundle.meta) ≠ [] := by
    intro hnil
    rw [← blendedSims_length fz q bundle (filter_indices q bundle.meta),
      hnil] at hrank
    simp at hrank
  obtain ⟨jm, hjm, hjmeq⟩ := List.mem_iff_getElem.mp
    (listMax_mem (blendedSims fz q bundle (filter_indices q bundle.meta)) hne0)
  have hsimseq : normSims (blendedSims fz q bundle
      (filter_indices q bundle.meta)) =
      (blendedSims fz q bundle (filter_indices q bundle.meta)).map
        fun x => x / listMax (blendedSims fz q bundle
          (filter_indices q bundle.meta)) := by
    unfold normSims
    rw [if_pos hmax]
  have hjm' : jm < (normSims (blendedSims fz q bundle
      (filter_indices q bundle.meta))).length := by
    rw [normSims_length]
    exact hjm
  have hsimsjm : (normSims (blendedSims fz q bundle
      (filter_indices q bundle.meta))).getD jm 0 = 1 := by
    rw [hsimseq, getD_map_lt hjm, hjmeq]
    exact div_self (ne_of_gt hmax)
  have hkey := hmaxrel jm hjm'
  have h1le : (1 : ℚ) ≤ (normSims (blendedSims fz q bundle
      (filter_indices q bundle.meta))).getD rank0 0 := by
    rcases hkey with hlt | ⟨heq, _⟩
    · rw [hsimsjm] at hlt
      exact le_of_lt hlt
    · rw [heq, hsimsjm]
  have hscore : r.score = (normSims (blendedSims fz q bundle
      (filter_indices q bundle.meta))).getD rank0 0 := by
    rw [hr0, resultAt_score]
  rw [hscore] at hub ⊢
  linarith

/-- Witness for C3: on the two-record bundle the "drama" query has a
positive blended maximum, and the theorem yields top score exactly 1 for
its first result. -/
theorem C3_scores_normalized_witness : resAlpha.score = 1 :=
  (C3_scores_normalized fzZero (parse_query ("drama".data)) bundleAB 5
    (by decide)
    (fun _ x hx => le_of_eq (List.mem_singleton.mp hx).symm)
    (fun _ _ => le_refl 0)).2 resAlpha [] (by decide) (by decide)

end FilmSearch
